import Mathlib

/-!
Verification of the cheat-table script merge engine (merge.py, with the older
merge_script.py variant noted where it differs).  Strings are modelled as
`List Char`; Python's library primitives (str.strip, str.replace, re.split on
a literal pattern, first-occurrence search) are embedded as executable Lean
functions with the semantics documented in the Python reference manual.
-/

namespace MergeEngine

/-- Whitespace set used by Python's `str.strip` / `str.lstrip` (ASCII part;
the scripts processed here are ASCII). -/
def pyIsSpace (c : Char) : Bool :=
  c = ' ' || c = '\t' || c = '\n' || c = '\r' || c = '\x0b' || c = '\x0c'

/-- Python `str.lstrip()`. -/
def pyLstrip (l : List Char) : List Char := l.dropWhile pyIsSpace

/-- Python `str.rstrip()`. -/
def pyRstrip (l : List Char) : List Char := (l.reverse.dropWhile pyIsSpace).reverse

/-- Python `str.strip()`. -/
def pyStrip (l : List Char) : List Char := pyRstrip (pyLstrip l)

/-- Python `str.startswith` on exact characters (case-sensitive). -/
def listStartsWith : List Char → List Char → Bool
  | [], _ => true
  | _ :: _, [] => false
  | a :: as, b :: bs => a == b && listStartsWith as bs

/-- Case-insensitive prefix test, as used by `re` with `re.IGNORECASE` on a
literal pattern (ASCII lowercasing). -/
def startsWithCI (needle hay : List Char) : Bool :=
  listStartsWith (needle.map Char.toLower) (hay.map Char.toLower)

/-- Index of the first position of `hay` whose suffix satisfies `test`
(generic first-match scanner; `none` when no position matches). -/
def findIdx1 (test : List Char → Bool) : List Char → Option Nat
  | [] => none
  | c :: rest => if test (c :: rest) then some 0 else (findIdx1 test rest).map (· + 1)

/-- First index of an exact occurrence of `needle` (Python `str.find` when the
needle is present, used to model scanning for a closing delimiter). -/
def findSub (needle : List Char) (hay : List Char) : Option Nat :=
  findIdx1 (listStartsWith needle) hay

/-- First index of a case-insensitive occurrence of `needle`, the semantics of
`re.split(lit, text, maxsplit=1, flags=re.IGNORECASE)`'s split point. -/
def findCI (needle : List Char) (hay : List Char) : Option Nat :=
  findIdx1 (startsWithCI needle) hay

/-- Decimal representation of a natural number, as Python's f-string
interpolation of an `int`. -/
def natStr (n : Nat) : List Char := (Nat.repr n).toList

/-- Concatenation of a list of strings, Python's `"".join(result)`. -/
def listJoin : List (List Char) → List Char
  | [] => []
  | x :: xs => x ++ listJoin xs

/-- Python's `sep.join(parts)`. -/
def joinSep (sep : List Char) : List (List Char) → List Char
  | [] => []
  | [x] => x
  | x :: xs => x ++ sep ++ joinSep sep xs

/-- Auxiliary scanner for Python `str.replace`: a positive first argument
skips characters already consumed by a match; at `0` it looks for the needle
at the current position, replacing the leftmost occurrence and continuing
after it, exactly as CPython's `str.replace` does for a non-empty needle. -/
def pyrepAux (needle repl : List Char) : Nat → List Char → List Char
  | _ + 1, [] => []
  | k + 1, _ :: rest => pyrepAux needle repl k rest
  | 0, [] => []
  | 0, c :: rest =>
    if listStartsWith needle (c :: rest) then
      repl ++ pyrepAux needle repl (needle.length - 1) rest
    else
      c :: pyrepAux needle repl 0 rest

/-- Python `hay.replace(needle, repl)` for a non-empty needle: replaces
non-overlapping occurrences, leftmost first. -/
def pyReplace (needle repl hay : List Char) : List Char :=
  pyrepAux needle repl 0 hay

/-! ## Dynamic-Token Extractor (`process_section`, merge.py lines 38-62)

`re.finditer` is library code; it is represented by the list of spans
`(m.start(), m.end())` it yields, which for any pattern is a list of
in-bounds, non-overlapping spans in strictly left-to-right order.  The
predicate `matchesOKb` states exactly that guarantee.  `processSection`
itself is the faithful transcription of the loop body: between-match text is
copied verbatim, each match is replaced by the `"%s"` placeholder, and the
matched substring `text[start:end]` is appended to `dyn_list`. -/

/-- Python slice `text[a:b]`. -/
def sliceStr (text : List Char) (a b : Nat) : List Char := (text.take b).drop a

/-- The `finditer` guarantee for a span list, starting the scan at `last`:
each span `(s, e)` satisfies `last ≤ s ≤ e ≤ len` and spans are emitted left
to right without overlap. -/
def matchesOKb (len : Nat) : Nat → List (Nat × Nat) → Bool
  | _, [] => true
  | last, (s, e) :: ms =>
    decide (last ≤ s) && decide (s ≤ e) && decide (e ≤ len) && matchesOKb len e ms

/-- The loop of `process_section`: returns the `result` list (literal pieces
alternating with `"%s"` placeholder entries, as built by the Python code
before `"".join`) and the `dyn_list` of extracted tokens. -/
def processAux (text : List Char) : Nat → List (Nat × Nat) → List (List Char) × List (List Char)
  | last, [] => ([sliceStr text last text.length], [])
  | last, (s, e) :: ms =>
    let r := processAux text e ms
    (sliceStr text last s :: "%s".toList :: r.1, sliceStr text s e :: r.2)

/-- The `result` segment list built by `process_section` (its internal
`result` variable: literal pieces with a recorded placeholder between
consecutive ones). -/
def processSectionSegs (text : List Char) (ms : List (Nat × Nat)) : List (List Char) :=
  (processAux text 0 ms).1

/-- `process_section(text, pattern)`: the joined template and the ordered
token list, `pattern`'s matches being represented by their spans `ms`. -/
def processSection (text : List Char) (ms : List (Nat × Nat)) : List Char × List (List Char) :=
  ((processAux text 0 ms).1.foldr (· ++ ·) [], (processAux text 0 ms).2)

/-- Re-substitution of tokens, in order, at the recorded placeholder
positions of the segment list: each literal piece is kept and each recorded
placeholder entry is replaced by the next token. -/
def resubstitute : List (List Char) → List (List Char) → List Char
  | [], _ => []
  | [lit], _ => lit
  | lit :: _ :: segs, tok :: toks => lit ++ tok ++ resubstitute segs toks
  | lit :: ph :: segs, [] => lit ++ ph ++ resubstitute segs []

/-! ## Config Table Builder (`build_lua_config_table`, merge.py lines 64-98)

The older merge_script.py variant escapes only quote characters; merge.py,
the maintained implementation, escapes backslashes first and then quotes,
which is what is embedded here. -/

/-- The escaping of one dynamic value,
`val.replace('\\', '\\\\').replace('"', '\\"')`. -/
def escapeLua (val : List Char) : List Char :=
  pyReplace "\"".toList "\\\"".toList (pyReplace "\\".toList "\\\\".toList val)

/-- The lines built by `build_version_table`'s loop,
`enumerate(values, start=1)` beginning at index `i`. -/
def configLines (i : Nat) : List (List Char) → List (List Char)
  | [] => []
  | v :: vs =>
    ("        dynamic".toList ++ natStr i ++ " = \"".toList ++ escapeLua v ++ "\"".toList)
      :: configLines (i + 1) vs

/-- `build_version_table(values)`. -/
def build_version_table (values : List (List Char)) : List Char :=
  "\x7b\n".toList ++ joinSep ",\n".toList (configLines 1 values) ++ "\n    \x7d".toList

/-- The Lua table text emitted on the success path of
`build_lua_config_table`. -/
def configTableText (name : List Char) (v1 v2 : List (List Char)) : List Char :=
  "local ".toList ++ name ++ " = \x7b\n    [1] = ".toList ++ build_version_table v1
    ++ ",\n    [2] = ".toList ++ build_version_table v2 ++ "\n\x7d".toList

/-- `build_lua_config_table(name, dyn_list_v1, dyn_list_v2)`: raising
`ValueError` is modelled as returning `.error` carrying the formatted
message. -/
def build_lua_config_table (name : List Char) (v1 v2 : List (List Char)) :
    Except (List Char) (List Char × Nat) :=
  if v1.length ≠ v2.length then
    .error ("Dynamic value count mismatch for ".toList ++ name ++ ": ".toList
      ++ natStr v1.length ++ " vs ".toList ++ natStr v2.length)
  else
    .ok (configTableText name v1 v2, v1.length)

/-! ## Section Splitter (`split_asm_sections`, merge.py lines 100-120)

merge.py checks the leading `[ENABLE]` header with the case-sensitive
`str.startswith` and splits on the first occurrence of `[DISABLE]` with
`re.split(r"(\[DISABLE\])", text, maxsplit=1, flags=re.IGNORECASE)`, whose
split point for this literal pattern is the first case-insensitive
occurrence; `parts[0]` is everything before it and `parts[2]` everything
after it.  (The older merge_script.py splits case-sensitively on every
occurrence and keeps only `parts[1]`; it is not embedded.) -/

def enableHdr : List Char := ['[', 'E', 'N', 'A', 'B', 'L', 'E', ']']

def disableHdr : List Char := ['[', 'D', 'I', 'S', 'A', 'B', 'L', 'E', ']']

/-- Lines 111-113 of merge.py: strip leading whitespace, then consume an
exact-case leading `[ENABLE]` header. -/
def afterHeader (text : List Char) : List Char :=
  let t := pyLstrip text
  if listStartsWith enableHdr t then pyLstrip (t.drop enableHdr.length) else t

/-- `split_asm_sections(text)`. -/
def split_asm_sections (text : List Char) : List Char × List Char :=
  let t2 := afterHeader text
  match findCI disableHdr t2 with
  | none => (pyStrip t2, [])
  | some i => (pyStrip (t2.take i), pyStrip (t2.drop (i + disableHdr.length)))

/-! ## Script Assembler (`build_script_part`, merge.py lines 122-153) -/

/-- The internal marker used by the percent-escaping of line 139. -/
def tempMarker : List Char := "__TEMP_PLACEHOLDER__".toList

/-- Line 139:
`template.replace('%s', placeholder).replace('%', '%%').replace(placeholder, '%s')`. -/
def templateEscaped (template : List Char) : List Char :=
  pyReplace tempMarker "%s".toList
    (pyReplace "%".toList "%%".toList (pyReplace "%s".toList tempMarker template))

/-- The `addr.dynamicI` key names `addrPfx.dynamic{i} for i in range(i, i+k)`. -/
def dynKeyList (addrPfx : List Char) : Nat → Nat → List (List Char)
  | _, 0 => []
  | i, k + 1 => (addrPfx ++ ".dynamic".toList ++ natStr i) :: dynKeyList addrPfx (i + 1) k

/-- `build_script_part(template, dyn_count, script_var, addr_prefix)`. -/
def build_script_part (template : List Char) (dynCount : Nat)
    (scriptVar addrPfx : List Char) : List Char :=
  if dynCount > 0 then
    "local ".toList ++ scriptVar ++ " = string.format([==[\n".toList
      ++ templateEscaped template ++ "\n]==], ".toList
      ++ joinSep ", ".toList (dynKeyList addrPfx 1 dynCount) ++ ")".toList
  else
    "local ".toList ++ scriptVar ++ " = [==[\n".toList ++ template ++ "\n]==]".toList

/-! ## Merge Orchestrator (`merge_asm_scripts`, merge.py lines 156-239)

The regex engine backing `DYN_PATTERN.finditer` is library code; it is
passed in as `fd`, the function from a section text to the list of match
spans the engine yields on it. -/

/-- The always-run deactivation logic block (merge.py lines 196-202). -/
def disableLogicFull : List Char :=
  ("\nif disableInfo and disableInfo.info then\n    autoAssemble(disableScript, disableInfo.info)\nelse\n    autoAssemble(disableScript) -- Might do nothing if script is empty, that\x27s okay\nend\ndisableInfo = nil").toList

/-- The final merged script text (merge.py lines 204-237). -/
def mergedScriptText (luaCfgE enablePart luaCfgD disablePart disableLogic : List Char) :
    List Char :=
  "[ENABLE]\n\x7b$lua\x7d\nif syntaxcheck then return end\n\n".toList ++ luaCfgE
    ++ "\n\nlocal addrE = config_enable[version]\nif not addrE then error(\"Could not determine addresses for the current game version (\" .. tostring(version) .. \")\") end\n\n".toList
    ++ enablePart
    ++ "\n\nlocal success, info = autoAssemble(enableScript)\nif not success then\n    error(\"Assembly failed: \" .. tostring(info))\nend\n\n-- Save disable info for use in the disable section\ndisableInfo = \x7b info = info \x7d -- Store assembly info (registers, allocations)\n\x7b$asm\x7d\n\n[DISABLE]\n\x7b$lua\x7d\nif syntaxcheck then return end\n\n".toList
    ++ luaCfgD
    ++ "\n\nlocal addrD = config_disable[version]\nif not addrD then error(\"Could not determine disable addresses for the current game version (\" .. tostring(version) .. \")\") end\n\n".toList
    ++ disablePart ++ "\n\n".toList ++ disableLogic ++ "\n\x7b$asm\x7d\n".toList

/-- `merge_asm_scripts(asm1, asm2)`: raised `ValueError`s are modelled as
`.error` results carrying the message. -/
def merge_asm_scripts (fd : List Char → List (Nat × Nat)) (asm1 asm2 : List Char) :
    Except (List Char) (List Char) :=
  let p1 := split_asm_sections asm1
  let p2 := split_asm_sections asm2
  let pe1 := processSection p1.1 (fd p1.1)
  let pe2 := processSection p2.1 (fd p2.1)
  let pd1 := processSection p1.2 (fd p1.2)
  let pd2 := processSection p2.2 (fd p2.2)
  if pe1.2.length ≠ pe2.2.length then
    .error ("Mismatch in dynamic values count in ENABLE sections (".toList
      ++ natStr pe1.2.length ++ " vs ".toList ++ natStr pe2.2.length ++ ")".toList)
  else if pd1.2.length ≠ pd2.2.length then
    .error ("Mismatch in dynamic values count in DISABLE sections (".toList
      ++ natStr pd1.2.length ++ " vs ".toList ++ natStr pd2.2.length ++ ")".toList)
  else
    match build_lua_config_table "config_enable".toList pe1.2 pe2.2,
          build_lua_config_table "config_disable".toList pd1.2 pd2.2 with
    | .error e, _ => .error e
    | _, .error e => .error e
    | .ok ce, .ok cd =>
      let enablePart := build_script_part pe1.1 ce.2 "enableScript".toList "addrE".toList
      let disablePart := build_script_part pd1.1 cd.2 "disableScript".toList "addrD".toList
      let disableLogic :=
        if pd1.1 ≠ [] ∨ cd.2 > 0 then disableLogicFull
        else "disableInfo = nil -- No disable script".toList
      .ok (mergedScriptText ce.1 enablePart cd.1 disablePart disableLogic)

/-! ## Entry Matcher (`merge_cheat_entries`, merge.py lines 268-307)

The identifier-to-script maps are association lists `(id, element text)`;
an element reference is represented by its text (`none` models an element
whose `.text` is `None`, read back through `or ""`).  Mutating
`asm_elem1.text` is modelled by returning the updated first map alongside
the `(merged, skipped, error)` counters. -/

/-- `cheat_id in asm_map2` followed by `asm_map2[cheat_id]`. -/
def lookupId (m : List (List Char × Option (List Char))) (k : List Char) :
    Option (Option (List Char)) :=
  match m with
  | [] => none
  | (k2, v) :: rest => if k2 = k then some v else lookupId rest k

/-- `merge_cheat_entries(asm_map1, asm_map2)`: returns the updated first map
and the counters `(merged_count, skipped_count, error_count)`.  Both the
`except ValueError` and the catch-all `except Exception` arms count the
entry as an error and leave it untouched. -/
def merge_cheat_entries (fd : List Char → List (Nat × Nat))
    (m2 : List (List Char × Option (List Char))) :
    List (List Char × Option (List Char)) →
      List (List Char × Option (List Char)) × Nat × Nat × Nat
  | [] => ([], 0, 0, 0)
  | (cheatId, txt) :: rest =>
    let r := merge_cheat_entries fd m2 rest
    match lookupId m2 cheatId with
    | none => ((cheatId, txt) :: r.1, r.2.1, r.2.2.1 + 1, r.2.2.2)
    | some txt2 =>
      match merge_asm_scripts fd (txt.getD []) (txt2.getD []) with
      | .ok merged => ((cheatId, some merged) :: r.1, r.2.1 + 1, r.2.2.1, r.2.2.2)
      | .error _ => ((cheatId, txt) :: r.1, r.2.1, r.2.2.1, r.2.2.2 + 1)

/-! ## Map construction (`get_assembler_scripts`, merge.py lines 242-266)

A document is the list of its `CheatEntry` nodes in `tree.iter` order; for
each, `idElem` is the `ID` child (`none` when absent, `some none` when
present without text) and `asmElem` the `AssemblerScript` child likewise.
The Python function mutates elements whose script text is `None`, so the
embedding returns the updated document together with the id-to-script map
(insertion order; Python's dict overwrites on duplicate ids, which does not
affect key membership). -/

structure CheatEntry where
  idElem : Option (Option (List Char))
  asmElem : Option (Option (List Char))
deriving DecidableEq

/-- The guard `if id_elem is not None and id_elem.text:` followed by
`cheat_id = id_elem.text.strip()` (an empty or `None` text is falsy). -/
def entryEligibleId (e : CheatEntry) : Option (List Char) :=
  match e.idElem with
  | some (some s) => if s ≠ [] then some (pyStrip s) else none
  | _ => none

/-- `get_assembler_scripts(tree)`: returns the (possibly mutated) document
and the mapping. -/
def get_assembler_scripts : List CheatEntry → List CheatEntry × List (List Char × List Char)
  | [] => ([], [])
  | e :: rest =>
    let r := get_assembler_scripts rest
    match entryEligibleId e with
    | none => (e :: r.1, r.2)
    | some cid =>
      match e.asmElem with
      | some (some t) => (e :: r.1, (cid, t) :: r.2)
      | some none => (⟨e.idElem, some (some [])⟩ :: r.1, (cid, []) :: r.2)
      | none => (e :: r.1, r.2)

/-! ## Evaluation-side models

These model the runtime semantics the generated Lua fragments rely on: the
long-bracket string literal (a newline immediately after the opening
bracket is not part of the string, Lua 5.x reference manual §3.1), the
substitution points `string.format` sees in a format string (`%%` is a
literal percent, `%s` a substitution point), and the decoding of a
double-quoted Lua string literal with backslash escapes. -/

/-- Leading-newline absorption of a Lua long-bracket literal. -/
def luaSkipNewline : List Char → List Char
  | '\n' :: rest => rest
  | l => l

/-- Evaluates a fragment of the exact shape emitted by the assembler's fast
path, `local VAR = [==[ ... ]==]`: the value `VAR` is bound to, or `none`
if the fragment does not have that shape. -/
def evalLiteralFragment (var frag : List Char) : Option (List Char) :=
  let pre := "local ".toList ++ var ++ " = [==[".toList
  if listStartsWith pre frag then
    let r := frag.drop pre.length
    match findSub "]==]".toList r with
    | some i => if r.drop (i + 4) = [] then some (luaSkipNewline (r.take i)) else none
    | none => none
  else none

/-- Number of `%s` substitution points `string.format` would fill in a
format string: `%%` is consumed as a literal percent, `%s` counts as one
substitution point. -/
def activeSubstPoints : List Char → Nat
  | [] => 0
  | c :: rest =>
    if c = '%' then
      match rest with
      | [] => 0
      | 's' :: r2 => activeSubstPoints r2 + 1
      | '%' :: r2 => activeSubstPoints r2
      | c2 :: r2 => activeSubstPoints (c2 :: r2)
    else activeSubstPoints rest

/-- Number of (leftmost, non-overlapping) `%s` occurrences in a text. -/
def countPS : List Char → Nat
  | [] => 0
  | c :: rest =>
    if c = '%' then
      match rest with
      | [] => 0
      | 's' :: r2 => countPS r2 + 1
      | c2 :: r2 => countPS (c2 :: r2)
    else countPS rest

/-- Single-pass characterization of the percent escaping: keeps each
(leftmost) `%s` pair and doubles every other percent sign. -/
def onePassEscape : List Char → List Char
  | [] => []
  | c :: rest =>
    if c = '%' then
      match rest with
      | [] => ['%', '%']
      | 's' :: r2 => '%' :: 's' :: onePassEscape r2
      | c2 :: r2 => '%' :: '%' :: onePassEscape (c2 :: r2)
    else c :: onePassEscape rest

/-- Whether `needle` occurs anywhere in `hay`. -/
def hasSubB (needle : List Char) : List Char → Bool
  | [] => listStartsWith needle []
  | c :: rest => listStartsWith needle (c :: rest) || hasSubB needle rest

/-- Exact occurrence of `needle` at index `j` of `hay`. -/
def occursAtB (needle hay : List Char) (j : Nat) : Bool :=
  listStartsWith needle (hay.drop j)

/-- Case-insensitive occurrence of `needle` at index `j` of `hay`. -/
def occursCIAtB (needle hay : List Char) (j : Nat) : Bool :=
  startsWithCI needle (hay.drop j)

/-- Decoder of a double-quoted Lua string literal body: reads characters up
to the first unescaped `"` terminator, interpreting `\c` as the literal
character `c`, and returns the decoded value together with the input
remaining after the terminator (`none` when no terminator is reached). -/
def scanStringLiteral : List Char → Option (List Char × List Char)
  | [] => none
  | [c] => if c = '"' then some ([], []) else none
  | c :: c2 :: r2 =>
    if c = '"' then some ([], c2 :: r2)
    else if c = '\\' then (scanStringLiteral r2).map (fun p => (c2 :: p.1, p.2))
    else (scanStringLiteral (c2 :: r2)).map (fun p => (c :: p.1, p.2))

/-- Per-character expansion (helper to characterise single-character
`str.replace` chains). -/
def charExpand (f : Char → List Char) : List Char → List Char
  | [] => []
  | c :: rest => f c ++ charExpand f rest

/-- The composite effect of `escapeLua` on a single character. -/
def escChar (c : Char) : List Char :=
  if c = '\\' then ['\\', '\\'] else if c = '"' then ['\\', '"'] else [c]

end MergeEngine

namespace MergeEngine

/-! ### Basic list lemmas (self-contained) -/

theorem dropAppend (a b : List Char) (n : Nat) :
    (a ++ b).drop n = a.drop n ++ b.drop (n - a.length) := by
  induction a generalizing n with
  | nil => simp
  | cons c cs ih =>
    cases n with
    | zero => simp
    | succ m => simpa using ih m

theorem takeAppend (a b : List Char) (n : Nat) :
    (a ++ b).take n = a.take n ++ b.take (n - a.length) := by
  induction a generalizing n with
  | nil => simp
  | cons c cs ih =>
    cases n with
    | zero => simp
    | succ m => simpa using ih m

theorem dropLenAppend (a b : List Char) : (a ++ b).drop a.length = b := by
  rw [dropAppend]; simp

theorem takeLenAppend (a b : List Char) : (a ++ b).take a.length = a := by
  rw [takeAppend]; simp

theorem listStartsWith_iff (n h : List Char) :
    listStartsWith n h = true ↔ ∃ t, h = n ++ t := by
  induction n generalizing h with
  | nil => simp [listStartsWith]
  | cons c cs ih =>
    cases h with
    | nil =>
      simp only [listStartsWith]
      constructor
      · intro hfalse; cases hfalse
      · rintro ⟨t, ht⟩; cases ht
    | cons d ds =>
      simp only [listStartsWith, Bool.and_eq_true, beq_iff_eq, ih]
      constructor
      · rintro ⟨rfl, t, rfl⟩; exact ⟨t, rfl⟩
      · rintro ⟨t, ht⟩
        injection ht with h1 h2
        exact ⟨h1.symm, t, h2⟩

theorem listStartsWith_append (n t : List Char) : listStartsWith n (n ++ t) = true :=
  (listStartsWith_iff n (n ++ t)).mpr ⟨t, rfl⟩

/-- The glue step of the round-trip proof: a slice followed by the remaining
suffix reassembles the suffix starting at the slice's left end. -/
theorem sliceGlue (text : List Char) (a b : Nat) (hab : a ≤ b) (hb : b ≤ text.length) :
    sliceStr text a b ++ text.drop b = text.drop a := by
  conv_rhs => rw [← List.take_append_drop b text]
  rw [dropAppend, sliceStr]
  have hlen : (text.take b).length = b := by
    simp [List.length_take, Nat.min_eq_left hb]
  rw [hlen, Nat.sub_eq_zero_of_le hab, List.drop_zero]

theorem listJoin_eq_foldr (segs : List (List Char)) : segs.foldr (· ++ ·) [] = listJoin segs := by
  induction segs with
  | nil => rfl
  | cons x xs ih => simp [listJoin, ih]

/-- Round-trip of the extractor core: for any span list satisfying the
`finditer` guarantee from position `last`, re-substituting the extracted
tokens at the recorded placeholders of the built segment list reproduces the
input suffix `text[last:]`. -/
theorem resub_aux (text : List Char) :
    ∀ (ms : List (Nat × Nat)) (last : Nat), matchesOKb text.length last ms = true →
      resubstitute (processAux text last ms).1 (processAux text last ms).2 = text.drop last := by
  intro ms
  induction ms with
  | nil =>
    intro last _
    simp [processAux, resubstitute, sliceStr, List.take_length]
  | cons m rest ih =>
    rcases m with ⟨s, e⟩
    intro last hok
    simp only [matchesOKb, Bool.and_eq_true, decide_eq_true_eq] at hok
    obtain ⟨⟨⟨h1, h2⟩, h3⟩, h4⟩ := hok
    simp only [processAux, resubstitute]
    rw [List.append_assoc, ih e h4]
    rw [sliceGlue text s e h2 h3, sliceGlue text last s h1 (Nat.le_trans h2 h3)]

/-- C1: Round-trip law of the Dynamic-Token Extractor: for every input text
and every span list satisfying the `finditer` guarantee (in-bounds,
non-overlapping, left-to-right), re-substituting the extracted tokens, in
order, at the placeholder positions `process_section` recorded in its
segment list reconstructs the original input text exactly; the returned
template is the join of that segment list. -/
theorem extractor_round_trip (text : List Char) (ms : List (Nat × Nat))
    (h : matchesOKb text.length 0 ms = true) :
    resubstitute (processSectionSegs text ms) (processSection text ms).2 = text
    ∧ (processSection text ms).1 = listJoin (processSectionSegs text ms) := by
  constructor
  · simpa using resub_aux text ms 0 h
  · simp [processSection, processSectionSegs, listJoin_eq_foldr]

/-- Witness for C1 at a concrete input containing one dynamic token. -/
theorem extractor_round_trip_witness :
    matchesOKb ("ab X.exe+1F cd".toList.length) 0 [(3, 11)] = true
    ∧ resubstitute (processSectionSegs "ab X.exe+1F cd".toList [(3, 11)])
        (processSection "ab X.exe+1F cd".toList [(3, 11)]).2 = "ab X.exe+1F cd".toList :=
  ⟨by decide, (extractor_round_trip "ab X.exe+1F cd".toList [(3, 11)] (by decide)).1⟩

/-! ### First-occurrence scanner lemmas -/

theorem findIdx1_eq_none (test : List Char → Bool) :
    ∀ (h : List Char), (∀ j, test (h.drop j) = false) → findIdx1 test h = none := by
  intro h
  induction h with
  | nil => intro _; rfl
  | cons c rest ih =>
    intro hall
    have h0 : test (c :: rest) = false := by simpa using hall 0
    have hrest : findIdx1 test rest = none := by
      apply ih
      intro j
      simpa [List.drop_succ_cons] using hall (j + 1)
    simp [findIdx1, h0, hrest]

theorem findIdx1_eq_some (test : List Char → Bool) (hnil : test [] = false) :
    ∀ (i : Nat) (h : List Char), test (h.drop i) = true →
      (∀ j, j < i → test (h.drop j) = false) → findIdx1 test h = some i := by
  intro i
  induction i with
  | zero =>
    intro h hi _
    cases h with
    | nil => rw [List.drop_nil, hnil] at hi; cases hi
    | cons c rest =>
      rw [List.drop_zero] at hi
      simp [findIdx1, hi]
  | succ k ih =>
    intro h hi hlt
    cases h with
    | nil => rw [List.drop_nil, hnil] at hi; cases hi
    | cons c rest =>
      have h0 : test (c :: rest) = false := by simpa using hlt 0 (Nat.succ_pos k)
      have hr : findIdx1 test rest = some k := by
        apply ih
        · simpa [List.drop_succ_cons] using hi
        · intro j hj
          simpa [List.drop_succ_cons] using hlt (j + 1) (Nat.succ_lt_succ hj)
      simp [findIdx1, h0, hr]

/-! ### Section Splitter theorems -/

theorem startsWithCI_nil_disable : startsWithCI disableHdr [] = false := by decide

/-- C6: Section Splitter split semantics: with `t2` the remainder after the
leading-whitespace and activation-header consumption of lines 111-113,
everything before the first case-insensitive deactivation-header occurrence
in `t2` (trimmed) is the activation body and everything after that first
occurrence (trimmed) is the deactivation body — later occurrences included
in it — with the deactivation body defaulting to the empty string when no
occurrence exists; the function is total, so missing headers never fail. -/
theorem splitter_split_semantics (text : List Char) :
    ((∀ j, occursCIAtB disableHdr (afterHeader text) j = false) →
      split_asm_sections text = (pyStrip (afterHeader text), []))
    ∧ (∀ i, occursCIAtB disableHdr (afterHeader text) i = true →
        (∀ j, j < i → occursCIAtB disableHdr (afterHeader text) j = false) →
        split_asm_sections text =
          (pyStrip ((afterHeader text).take i),
            pyStrip ((afterHeader text).drop (i + disableHdr.length)))) := by
  constructor
  · intro hall
    have hn : findCI disableHdr (afterHeader text) = none := by
      apply findIdx1_eq_none
      intro j
      simpa [occursCIAtB] using hall j
    simp [split_asm_sections, hn]
  · intro i hi hlt
    have hs : findCI disableHdr (afterHeader text) = some i := by
      apply findIdx1_eq_some _ startsWithCI_nil_disable
      · simpa [occursCIAtB] using hi
      · intro j hj
        simpa [occursCIAtB] using hlt j hj
    simp [split_asm_sections, hs]

/-- Witness for C6 on a concrete script with one deactivation header. -/
theorem splitter_split_semantics_witness :
    occursCIAtB disableHdr (afterHeader "[ENABLE]\n aaa \n[disable]\n bbb ".toList) 5 = true
    ∧ split_asm_sections "[ENABLE]\n aaa \n[disable]\n bbb ".toList
        = (pyStrip ((afterHeader "[ENABLE]\n aaa \n[disable]\n bbb ".toList).take 5),
            pyStrip ((afterHeader "[ENABLE]\n aaa \n[disable]\n bbb ".toList).drop (5 + disableHdr.length))) :=
  ⟨by decide,
    (splitter_split_semantics "[ENABLE]\n aaa \n[disable]\n bbb ".toList).2 5 (by decide) (by decide)⟩

/-- C5 counterexample: the leading activation header is matched by the
case-sensitive `str.startswith`, so a lowercase `[enable]` header is NOT
consumed (it stays inside the activation body), while the same script with
the uppercase header has it consumed — refuting that the activation marker
is treated case-insensitively.  (The deactivation marker alone is matched
case-insensitively, see the amended theorem.) -/
theorem splitter_case_counterexample :
    split_asm_sections "[enable] body".toList = ("[enable] body".toList, [])
    ∧ split_asm_sections "[ENABLE] body".toList = ("body".toList, [])
    ∧ "[enable] body".toList ≠ "body".toList := by
  refine ⟨by decide, by decide, by decide⟩

/-- C5 amended: header-case handling of `split_asm_sections`: (1) a leading
activation header is consumed only in its exact uppercase spelling
`[ENABLE]` (consuming it yields the same result as on the remainder); (2)
the deactivation split point is matched case-insensitively: any casing `d`
of the deactivation marker splits the text around it. -/
theorem splitter_case_handling :
    (∀ rest, listStartsWith enableHdr (pyLstrip rest) = false →
      split_asm_sections (enableHdr ++ rest) = split_asm_sections rest)
    ∧ (∀ u d v, d.map Char.toLower = disableHdr.map Char.toLower →
        (∀ j, j < u.length → occursCIAtB disableHdr (u ++ d ++ v) j = false) →
        listStartsWith enableHdr (pyLstrip (u ++ d ++ v)) = false →
        pyLstrip (u ++ d ++ v) = u ++ d ++ v →
        split_asm_sections (u ++ d ++ v) = (pyStrip u, pyStrip v)) := by
  constructor
  · intro rest hrest
    have hl : pyLstrip (enableHdr ++ rest) = enableHdr ++ rest := by
      simp [enableHdr, pyLstrip, List.dropWhile, pyIsSpace]
    have hsw : listStartsWith enableHdr (enableHdr ++ rest) = true :=
      listStartsWith_append enableHdr rest
    have hdrop : (enableHdr ++ rest).drop enableHdr.length = rest :=
      dropLenAppend enableHdr rest
    have hafter : afterHeader (enableHdr ++ rest) = afterHeader rest := by
      simp [afterHeader, hl, hsw, hdrop, hrest]
    simp [split_asm_sections, hafter]
  · intro u d v hdl hbefore hhdr hls
    have hdlen : d.length = disableHdr.length := by
      have := congrArg List.length hdl
      simpa using this
    have hhdr2 : listStartsWith enableHdr (u ++ d ++ v) = false := hls ▸ hhdr
    have hafter : afterHeader (u ++ d ++ v) = u ++ d ++ v := by
      simp only [afterHeader, hls, hhdr2, Bool.false_eq_true, if_false]
    have hocc : occursCIAtB disableHdr (u ++ d ++ v) u.length = true := by
      have hdrop : (u ++ d ++ v).drop u.length = d ++ v := by
        rw [List.append_assoc]
        exact dropLenAppend u (d ++ v)
      rw [occursCIAtB, hdrop]
      rw [startsWithCI, List.map_append, ← hdl]
      exact listStartsWith_append (d.map Char.toLower) (v.map Char.toLower)
    have hs : findCI disableHdr (u ++ d ++ v) = some u.length := by
      apply findIdx1_eq_some _ startsWithCI_nil_disable
      · simpa [occursCIAtB] using hocc
      · intro j hj
        simpa [occursCIAtB] using hbefore j hj
    have htake : (u ++ d ++ v).take u.length = u := by
      rw [List.append_assoc]
      exact takeLenAppend u (d ++ v)
    have hdrop2 : (u ++ d ++ v).drop (u.length + disableHdr.length) = v := by
      rw [List.append_assoc, dropAppend]
      have h1 : u.drop (u.length + disableHdr.length) = [] := by
        apply List.drop_eq_nil_of_le
        exact Nat.le_add_right u.length disableHdr.length
      rw [h1, Nat.add_sub_cancel_left, List.nil_append, ← hdlen]
      exact dropLenAppend d v
    rw [split_asm_sections]
    simp only [hafter, hs, htake, hdrop2]

/-- Witness for C5 (amended) with a mixed-case deactivation marker. -/
theorem splitter_case_handling_witness :
    split_asm_sections (enableHdr ++ " body".toList) = split_asm_sections " body".toList
    ∧ split_asm_sections ("abc ".toList ++ "[dIsAbLe]".toList ++ " def".toList)
        = (pyStrip "abc ".toList, pyStrip " def".toList) :=
  ⟨splitter_case_handling.1 " body".toList (by decide),
    splitter_case_handling.2 "abc ".toList "[dIsAbLe]".toList " def".toList
      (by decide) (by decide) (by decide) (by decide)⟩

/-! ### Config Table Builder theorems -/

/-- C2: the Config Table Builder fails if and only if the two token lists
have different lengths: on equal lengths it returns the table text together
with `count = len(tokens_v1)`, and on differing lengths it fails with the
mismatch message reporting both counts; the two branches are exhaustive, so
it never fails for any other reason. -/
theorem config_table_failure_iff (name : List Char) (v1 v2 : List (List Char)) :
    (v1.length = v2.length →
      build_lua_config_table name v1 v2 = .ok (configTableText name v1 v2, v1.length))
    ∧ (v1.length ≠ v2.length →
      build_lua_config_table name v1 v2 =
        .error ("Dynamic value count mismatch for ".toList ++ name ++ ": ".toList
          ++ natStr v1.length ++ " vs ".toList ++ natStr v2.length)) := by
  constructor
  · intro h
    simp [build_lua_config_table, h]
  · intro h
    simp [build_lua_config_table, h]

/-- Witness for C2: a succeeding equal-length pair and a failing
unequal-length pair. -/
theorem config_table_failure_iff_witness :
    build_lua_config_table "config_enable".toList ["a.exe+1F".toList] ["b.exe+2A".toList]
      = .ok (configTableText "config_enable".toList ["a.exe+1F".toList] ["b.exe+2A".toList], 1)
    ∧ build_lua_config_table "config_enable".toList ["a.exe+1F".toList] []
      = .error ("Dynamic value count mismatch for ".toList ++ "config_enable".toList
          ++ ": ".toList ++ natStr 1 ++ " vs ".toList ++ natStr 0) :=
  ⟨(config_table_failure_iff "config_enable".toList ["a.exe+1F".toList] ["b.exe+2A".toList]).1 (by decide),
    (config_table_failure_iff "config_enable".toList ["a.exe+1F".toList] []).2 (by decide)⟩

/-! ### Escaping lemmas -/

theorem pyReplace_single (c : Char) (r : List Char) :
    ∀ l, pyReplace [c] r l = charExpand (fun x => if x = c then r else [x]) l := by
  intro l
  induction l with
  | nil => rfl
  | cons x rest ih =>
    by_cases hx : c = x
    · subst hx
      have hsw : listStartsWith [c] (c :: rest) = true := by
        simp [listStartsWith]
      simp only [pyReplace, pyrepAux, hsw, if_pos, charExpand, if_pos rfl,
        List.length_singleton, Nat.sub_self]
      exact congrArg (r ++ ·) ih
    · have hsw : listStartsWith [c] (x :: rest) = false := by
        simp [listStartsWith, hx]
      have hx2 : ¬ x = c := fun h => hx h.symm
      simp only [pyReplace, pyrepAux, hsw, Bool.false_eq_true, if_false, charExpand,
        hx2, List.singleton_append]
      exact congrArg (x :: ·) ih

theorem charExpand_append (f : Char → List Char) (a b : List Char) :
    charExpand f (a ++ b) = charExpand f a ++ charExpand f b := by
  induction a with
  | nil => rfl
  | cons c rest ih => simp [charExpand, ih]

/-- The two sequential `str.replace` calls of `escapeLua` amount to the
per-character escaping `escChar`. -/
theorem escapeLua_eq_charExpand (v : List Char) : escapeLua v = charExpand escChar v := by
  have h1 : "\\".toList = ['\\'] := rfl
  have h2 : "\"".toList = ['"'] := rfl
  rw [escapeLua, h1, h2]
  rw [pyReplace_single, pyReplace_single]
  induction v with
  | nil => rfl
  | cons x rest ih =>
    rw [charExpand, charExpand_append, ih, charExpand, escChar]
    by_cases hb : x = '\\'
    · subst hb
      simp [charExpand]
    · by_cases hq : x = '"'
      · subst hq
        simp [charExpand]
      · simp [hb, hq, charExpand]

/-- Decoding a double-quoted literal built from `escapeLua v` terminates at
the appended closing quote and yields back exactly `v`. -/
theorem scan_escapeLua (v : List Char) (rest : List Char) :
    scanStringLiteral (escapeLua v ++ '"' :: rest) = some (v, rest) := by
  rw [escapeLua_eq_charExpand]
  induction v with
  | nil =>
    show scanStringLiteral ([] ++ '"' :: rest) = some ([], rest)
    cases rest with
    | nil => rfl
    | cons a b => simp [scanStringLiteral]
  | cons x xs ih =>
    rw [charExpand, List.append_assoc]
    by_cases hb : x = '\\'
    · subst hb
      show scanStringLiteral ('\\' :: '\\' :: (charExpand escChar xs ++ '"' :: rest))
        = some ('\\' :: xs, rest)
      simp [scanStringLiteral, ih]
    · by_cases hq : x = '"'
      · subst hq
        show scanStringLiteral ('\\' :: '"' :: (charExpand escChar xs ++ '"' :: rest))
          = some ('"' :: xs, rest)
        simp [scanStringLiteral, ih]
      · have hx : escChar x = [x] := by simp [escChar, hb, hq]
        rw [hx]
        cases hLc : charExpand escChar xs ++ '"' :: rest with
        | nil => simp at hLc
        | cons l0 ltl =>
          rw [List.singleton_append]
          simp only [scanStringLiteral, if_neg hq, if_neg hb]
          rw [← hLc, ih]
          rfl

theorem configLines_getq :
    ∀ (vals : List (List Char)) (k j : Nat) (v : List Char), vals[j]? = some v →
      (configLines k vals)[j]? = some ("        dynamic".toList ++ natStr (k + j)
        ++ " = \"".toList ++ escapeLua v ++ "\"".toList) := by
  intro vals
  induction vals with
  | nil => intro k j v h; simp at h
  | cons v0 vs ih =>
    intro k j v h
    cases j with
    | zero =>
      simp only [List.getElem?_cons_zero, Option.some.injEq] at h
      subst h
      simp [configLines]
    | succ m =>
      simp only [List.getElem?_cons_succ] at h
      have := ih (k + 1) m v h
      simpa [configLines, Nat.add_assoc, Nat.add_comm 1 m] using this

/-- C9: Config-table escaping: for equal-length token lists the builder
emits the two-row table with row 1 = `tokens_v1` and row 2 = `tokens_v2`;
the `j`-th line of row `i` (0-based `j`) binds key `dynamicJ+1` to
`tokens_vi[j]` with backslash and quote characters escaped (`escChar`
per character); and the escaped text, closed by a quote, decodes back to
exactly the raw token with that quote as the terminator — the safe-embedding
property for a string literal. -/
theorem config_table_escaping (name : List Char) (v1 v2 : List (List Char))
    (h : v1.length = v2.length) (j : Nat) (w1 w2 : List Char)
    (h1 : v1[j]? = some w1) (h2 : v2[j]? = some w2) (rest : List Char) :
    build_lua_config_table name v1 v2
      = .ok ("local ".toList ++ name ++ " = \x7b\n    [1] = ".toList ++ build_version_table v1
          ++ ",\n    [2] = ".toList ++ build_version_table v2 ++ "\n\x7d".toList, v1.length)
    ∧ (configLines 1 v1)[j]? = some ("        dynamic".toList ++ natStr (j + 1)
        ++ " = \"".toList ++ escapeLua w1 ++ "\"".toList)
    ∧ (configLines 1 v2)[j]? = some ("        dynamic".toList ++ natStr (j + 1)
        ++ " = \"".toList ++ escapeLua w2 ++ "\"".toList)
    ∧ escapeLua w1 = charExpand escChar w1
    ∧ scanStringLiteral (escapeLua w1 ++ '"' :: rest) = some (w1, rest) := by
  refine ⟨?_, ?_, ?_, escapeLua_eq_charExpand w1, scan_escapeLua w1 rest⟩
  · simp [build_lua_config_table, h, configTableText]
  · simpa [Nat.add_comm 1 j] using configLines_getq v1 1 j w1 h1
  · simpa [Nat.add_comm 1 j] using configLines_getq v2 1 j w2 h2

/-- Witness for C9 on tokens containing a backslash and a quote. -/
theorem config_table_escaping_witness :
    (configLines 1 ["a\\b\"c.exe+1F".toList])[0]? = some ("        dynamic".toList
        ++ natStr 1 ++ " = \"".toList ++ escapeLua "a\\b\"c.exe+1F".toList ++ "\"".toList)
    ∧ scanStringLiteral (escapeLua "a\\b\"c.exe+1F".toList ++ '"' :: []) =
        some ("a\\b\"c.exe+1F".toList, []) :=
  ⟨(config_table_escaping "config_enable".toList ["a\\b\"c.exe+1F".toList] ["d.exe+2A".toList]
      (by decide) 0 "a\\b\"c.exe+1F".toList "d.exe+2A".toList (by decide) (by decide) []).2.1,
    (config_table_escaping "config_enable".toList ["a\\b\"c.exe+1F".toList] ["d.exe+2A".toList]
      (by decide) 0 "a\\b\"c.exe+1F".toList "d.exe+2A".toList (by decide) (by decide) []).2.2.2.2⟩

/-! ### Entry Matcher theorems -/

/-- Processing of the Entry Matcher is per-entry: results on an appended map
are the appended per-part results with summed counters (no cross-entry
state, so one entry's outcome never affects the remaining entries). -/
theorem mce_append (fd : List Char → List (Nat × Nat))
    (m2 : List (List Char × Option (List Char)))
    (xs ys : List (List Char × Option (List Char))) :
    merge_cheat_entries fd m2 (xs ++ ys) =
      ((merge_cheat_entries fd m2 xs).1 ++ (merge_cheat_entries fd m2 ys).1,
        (merge_cheat_entries fd m2 xs).2.1 + (merge_cheat_entries fd m2 ys).2.1,
        (merge_cheat_entries fd m2 xs).2.2.1 + (merge_cheat_entries fd m2 ys).2.2.1,
        (merge_cheat_entries fd m2 xs).2.2.2 + (merge_cheat_entries fd m2 ys).2.2.2) := by
  induction xs with
  | nil => simp [merge_cheat_entries]
  | cons e xs ih =>
    rcases e with ⟨cheatId, txt⟩
    rw [List.cons_append]
    simp only [merge_cheat_entries]
    rw [ih]
    split
    · simp [Prod.ext_iff, List.cons_append]
      omega
    · split
      · simp [Prod.ext_iff, List.cons_append]
        omega
      · simp [Prod.ext_iff, List.cons_append]
        omega

/-- C3: Entry-Matcher counting invariant: for every pair of maps,
`merged + skipped + error = |M1|`; the processed entries are exactly M1's
(same identifiers, same order — no identifier absent from M1 is processed,
and M2 is never modified); and processing decomposes entry by entry, so a
failing entry never aborts the remaining ones (the function is total: every
merge failure is caught and tallied). -/
theorem matcher_counting (fd : List Char → List (Nat × Nat))
    (m2 m1 : List (List Char × Option (List Char))) :
    (merge_cheat_entries fd m2 m1).2.1 + (merge_cheat_entries fd m2 m1).2.2.1
        + (merge_cheat_entries fd m2 m1).2.2.2 = m1.length
    ∧ (merge_cheat_entries fd m2 m1).1.map Prod.fst = m1.map Prod.fst
    ∧ ∀ xs ys, merge_cheat_entries fd m2 (xs ++ ys) =
        ((merge_cheat_entries fd m2 xs).1 ++ (merge_cheat_entries fd m2 ys).1,
          (merge_cheat_entries fd m2 xs).2.1 + (merge_cheat_entries fd m2 ys).2.1,
          (merge_cheat_entries fd m2 xs).2.2.1 + (merge_cheat_entries fd m2 ys).2.2.1,
          (merge_cheat_entries fd m2 xs).2.2.2 + (merge_cheat_entries fd m2 ys).2.2.2) := by
  refine ⟨?_, ?_, mce_append fd m2⟩
  · induction m1 with
    | nil => simp [merge_cheat_entries]
    | cons e rest ih =>
      rcases e with ⟨cheatId, txt⟩
      simp only [merge_cheat_entries, List.length_cons]
      split <;> (try split) <;> (try simp) <;> omega
  · induction m1 with
    | nil => simp [merge_cheat_entries]
    | cons e rest ih =>
      rcases e with ⟨cheatId, txt⟩
      simp only [merge_cheat_entries, List.map_cons]
      split <;> (try split) <;> simp [ih]

/-- C4: Per-entry atomicity on failure: if an entry of M1 is present in M2
and merging its two scripts fails (count mismatch or any other error), the
matcher leaves that entry's script text completely unchanged in the
resulting document state and tallies it as one error, while the surrounding
entries are processed exactly as they would be alone. -/
theorem matcher_atomic_on_error (fd : List Char → List (Nat × Nat))
    (m2 pre post : List (List Char × Option (List Char)))
    (cheatId : List Char) (txt t2 : Option (List Char)) (e : List Char)
    (hl : lookupId m2 cheatId = some t2)
    (hm : merge_asm_scripts fd (txt.getD []) (t2.getD []) = .error e) :
    (merge_cheat_entries fd m2 (pre ++ (cheatId, txt) :: post)).1
      = (merge_cheat_entries fd m2 pre).1
          ++ (cheatId, txt) :: (merge_cheat_entries fd m2 post).1
    ∧ (merge_cheat_entries fd m2 (pre ++ (cheatId, txt) :: post)).2.2.2
      = (merge_cheat_entries fd m2 pre).2.2.2
          + ((merge_cheat_entries fd m2 post).2.2.2 + 1) := by
  have hstep : merge_cheat_entries fd m2 ((cheatId, txt) :: post)
      = ((cheatId, txt) :: (merge_cheat_entries fd m2 post).1,
          (merge_cheat_entries fd m2 post).2.1,
          (merge_cheat_entries fd m2 post).2.2.1,
          (merge_cheat_entries fd m2 post).2.2.2 + 1) := by
    simp only [merge_cheat_entries, hl, hm]
  rw [mce_append fd m2 pre ((cheatId, txt) :: post), hstep]
  exact ⟨rfl, rfl⟩

/-- Witness for C4: entry `7` exists in both maps but its merge fails with
an ENABLE-section token-count mismatch (1 token in the second script, 0 in
the first), so the entry is left unchanged and counted as the one error. -/
theorem matcher_atomic_on_error_witness :
    lookupId [("7".toList, some "A".toList)] "7".toList = some (some "A".toList)
    ∧ (merge_cheat_entries (fun t => if t = "A".toList then [(0, 1)] else [])
        [("7".toList, some "A".toList)] [("7".toList, some "B".toList)]).1
        = [("7".toList, some "B".toList)]
    ∧ (merge_cheat_entries (fun t => if t = "A".toList then [(0, 1)] else [])
        [("7".toList, some "A".toList)] [("7".toList, some "B".toList)]).2.2.2 = 1 := by
  have h := matcher_atomic_on_error
    (fun t => if t = "A".toList then [(0, 1)] else [])
    [("7".toList, some "A".toList)] [] []
    "7".toList (some "B".toList) (some "A".toList)
    ("Mismatch in dynamic values count in ENABLE sections (".toList
      ++ natStr 0 ++ " vs ".toList ++ natStr 1 ++ ")".toList)
    (by decide) (by rfl)
  refine ⟨by decide, ?_, ?_⟩
  · simpa [merge_cheat_entries] using h.1
  · simpa [merge_cheat_entries] using h.2

/-! ### Map construction theorems -/

/-- `get_assembler_scripts` processes entries independently: the result on
an appended document is the appended per-part result. -/
theorem gas_append (xs ys : List CheatEntry) :
    get_assembler_scripts (xs ++ ys) =
      ((get_assembler_scripts xs).1 ++ (get_assembler_scripts ys).1,
        (get_assembler_scripts xs).2 ++ (get_assembler_scripts ys).2) := by
  induction xs with
  | nil => simp [get_assembler_scripts]
  | cons e xs ih =>
    rw [List.cons_append]
    simp only [get_assembler_scripts]
    rw [ih]
    split
    · simp
    · split <;> simp

/-- C10: building the identifier-to-script map itself mutates the input
document: an entry whose `ID` element has non-empty text and whose
`AssemblerScript` element exists but has no text gets the empty string
assigned to that element's text (so the returned document differs from the
input at that entry) and the entry's identifier is included in the map with
the empty script; `get_assembler_scripts` is applied to both documents, so
even the second, reference-only document is modified this way before any
merge is attempted. -/
theorem map_construction_mutates (pre post : List CheatEntry) (e : CheatEntry)
    (s : List Char) (hid : e.idElem = some (some s)) (hs : s ≠ [])
    (hasm : e.asmElem = some none) :
    (get_assembler_scripts (pre ++ e :: post)).1
      = (get_assembler_scripts pre).1
          ++ (⟨e.idElem, some (some [])⟩ : CheatEntry) :: (get_assembler_scripts post).1
    ∧ (pyStrip s, ([] : List Char)) ∈ (get_assembler_scripts (pre ++ e :: post)).2
    ∧ (⟨e.idElem, some (some [])⟩ : CheatEntry) ≠ e := by
  have helig : entryEligibleId e = some (pyStrip s) := by
    rw [entryEligibleId, hid]
    simp [hs]
  have hstep : get_assembler_scripts (e :: post)
      = ((⟨e.idElem, some (some [])⟩ : CheatEntry) :: (get_assembler_scripts post).1,
          (pyStrip s, ([] : List Char)) :: (get_assembler_scripts post).2) := by
    simp only [get_assembler_scripts, helig, hasm]
  rw [gas_append pre (e :: post), hstep]
  refine ⟨rfl, ?_, ?_⟩
  · exact List.mem_append_right _ (List.mem_cons_self _ _)
  · intro hcontra
    have : (⟨e.idElem, some (some [])⟩ : CheatEntry).asmElem = e.asmElem :=
      congrArg CheatEntry.asmElem hcontra
    rw [hasm] at this
    simp at this

/-- Witness for C10: a one-entry document with an empty `AssemblerScript`
element is mutated by map construction and the entry is mapped. -/
theorem map_construction_mutates_witness :
    (get_assembler_scripts [⟨some (some "12".toList), some none⟩]).1
      = [⟨some (some "12".toList), some (some [])⟩]
    ∧ (pyStrip "12".toList, ([] : List Char))
        ∈ (get_assembler_scripts [⟨some (some "12".toList), some none⟩]).2
    ∧ (⟨some (some "12".toList), some (some [])⟩ : CheatEntry)
        ≠ ⟨some (some "12".toList), some none⟩ := by
  have h := map_construction_mutates [] [] ⟨some (some "12".toList), some none⟩
    "12".toList rfl (by decide) rfl
  refine ⟨?_, ?_, h.2.2⟩
  · simpa [get_assembler_scripts] using h.1
  · simpa [get_assembler_scripts] using h.2.1

/-! ### Script Assembler fast-path theorems -/

theorem takeAllOfLe (l : List Char) (n : Nat) (h : l.length ≤ n) : l.take n = l := by
  induction l generalizing n with
  | nil => simp
  | cons c cs ih =>
    cases n with
    | zero => simp at h
    | succ m =>
      simp only [List.length_cons, Nat.succ_le_succ_iff] at h
      simp [List.take_succ_cons, ih m h]

theorem dropNilOfLe (l : List Char) (n : Nat) (h : l.length ≤ n) : l.drop n = [] := by
  induction l generalizing n with
  | nil => simp
  | cons c cs ih =>
    cases n with
    | zero => simp at h
    | succ m =>
      simp only [List.length_cons, Nat.succ_le_succ_iff] at h
      simp [List.drop_succ_cons, ih m h]

theorem listStartsWith_self (n : List Char) : listStartsWith n n = true := by
  have := listStartsWith_append n []
  simpa using this

/-- C7 counterexample: the fast-path fragment wraps the template between a
leading and a trailing newline inside the long-bracket literal; Lua absorbs
only the leading one, so evaluating the emitted fragment yields the template
followed by a trailing newline — not exactly the template text. -/
theorem assembler_fast_path_counterexample :
    evalLiteralFragment "enableScript".toList
        (build_script_part "x".toList 0 "enableScript".toList "addrE".toList)
      = some ('x' :: ['\n'])
    ∧ ('x' :: ['\n']) ≠ ['x'] := by
  refine ⟨by decide, by decide⟩

/-- C7 amended: for a template whose wrapped content contains no premature
`]==]` terminator, the fast-path fragment binds the script variable to the
literal template text unmodified (no escaping, no `string.format` call in
the emitted text), and evaluating the fragment yields exactly the template
text followed by one trailing newline (the wrapper's leading newline is
absorbed by the long-bracket literal), with no substitution performed. -/
theorem assembler_fast_path (template v pfx : List Char)
    (h : ∀ j, j < template.length + 2 →
      occursAtB "]==]".toList ('\n' :: (template ++ "\n]==]".toList)) j = false) :
    build_script_part template 0 v pfx
      = "local ".toList ++ v ++ " = [==[\n".toList ++ template ++ "\n]==]".toList
    ∧ evalLiteralFragment v (build_script_part template 0 v pfx)
      = some (template ++ ['\n']) := by
  have hfrag : build_script_part template 0 v pfx
      = ("local ".toList ++ v ++ " = [==[".toList)
          ++ ('\n' :: (template ++ "\n]==]".toList)) := by
    simp [build_script_part, List.append_assoc]
  constructor
  · rw [hfrag]
    simp [List.append_assoc]
  · set pre := "local ".toList ++ v ++ " = [==[".toList with hpredef
    set r := '\n' :: (template ++ "\n]==]".toList) with hrdef
    have hsw : listStartsWith pre (build_script_part template 0 v pfx) = true := by
      rw [hfrag]
      exact listStartsWith_append pre r
    have hdropr : (build_script_part template 0 v pfx).drop pre.length = r := by
      rw [hfrag]
      exact dropLenAppend pre r
    have hdrop2 : r.drop (template.length + 2) = "]==]".toList := by
      rw [hrdef]
      have : ('\n' :: (template ++ "\n]==]".toList)).drop (template.length + 2)
          = (template ++ "\n]==]".toList).drop (template.length + 1) := by
        simp [List.drop_succ_cons]
      rw [this, dropAppend]
      rw [dropNilOfLe template (template.length + 1) (by omega)]
      simp
    have hocc : occursAtB "]==]".toList r (template.length + 2) = true := by
      rw [occursAtB, hdrop2]
      exact listStartsWith_self _
    have hfind : findSub "]==]".toList r = some (template.length + 2) := by
      apply findIdx1_eq_some _ (by decide)
      · simpa [occursAtB] using hocc
      · intro j hj
        simpa [occursAtB] using h j hj
    have hlen : r.length = template.length + 6 := by
      simp [hrdef]
    have hdropend : r.drop (template.length + 2 + 4) = [] := by
      apply dropNilOfLe
      omega
    have htake : r.take (template.length + 2) = '\n' :: (template ++ ['\n']) := by
      rw [hrdef]
      rw [show template.length + 2 = template.length + 1 + 1 by omega]
      simp only [List.take_succ_cons]
      rw [takeAppend]
      rw [takeAllOfLe template (template.length + 1) (by omega)]
      simp
    rw [evalLiteralFragment]
    simp only [← hpredef, hsw, if_pos, hdropr, hfind, hdropend, if_pos rfl, htake]
    rfl

/-- Witness for C7 (amended) on a concrete assembly-like template. -/
theorem assembler_fast_path_witness :
    (∀ j, j < "mov eax, 1".toList.length + 2 →
      occursAtB "]==]".toList ('\n' :: ("mov eax, 1".toList ++ "\n]==]".toList)) j = false)
    ∧ evalLiteralFragment "enableScript".toList
        (build_script_part "mov eax, 1".toList 0 "enableScript".toList "addrE".toList)
      = some ("mov eax, 1".toList ++ ['\n']) :=
  ⟨by decide,
    (assembler_fast_path "mov eax, 1".toList "enableScript".toList "addrE".toList (by decide)).2⟩

/-! ### Percent-escaping lemmas (Script Assembler, count > 0 path) -/

theorem pyrepAux_skip (n r : List Char) :
    ∀ (a b : List Char), pyrepAux n r a.length (a ++ b) = pyrepAux n r 0 b := by
  intro a
  induction a with
  | nil => intro b; rfl
  | cons x xs ih =>
    intro b
    show pyrepAux n r (xs.length + 1) (x :: (xs ++ b)) = pyrepAux n r 0 b
    rw [show pyrepAux n r (xs.length + 1) (x :: (xs ++ b)) = pyrepAux n r xs.length (xs ++ b)
      from rfl]
    exact ih b

/-- A no-match head steps over one character. -/
theorem pyrep_no_match (n r : List Char) (c : Char) (rest : List Char)
    (h : listStartsWith n (c :: rest) = false) :
    pyReplace n r (c :: rest) = c :: pyReplace n r rest := by
  simp [pyReplace, pyrepAux, h]

/-- A match at the head replaces the whole needle and continues after it. -/
theorem pyrep_match_append (d : Char) (ds r t : List Char) :
    pyReplace (d :: ds) r ((d :: ds) ++ t) = r ++ pyReplace (d :: ds) r t := by
  have hsw : listStartsWith (d :: ds) (d :: (ds ++ t)) = true := by
    have := listStartsWith_append (d :: ds) t
    simpa using this
  show pyrepAux (d :: ds) r 0 (d :: (ds ++ t)) = r ++ pyrepAux (d :: ds) r 0 t
  rw [show pyrepAux (d :: ds) r 0 (d :: (ds ++ t))
      = if listStartsWith (d :: ds) (d :: (ds ++ t)) then
          r ++ pyrepAux (d :: ds) r ((d :: ds).length - 1) (ds ++ t)
        else d :: pyrepAux (d :: ds) r 0 (ds ++ t) from rfl]
  rw [if_pos hsw]
  simp only [List.length_cons, Nat.add_sub_cancel]
  exact congrArg (r ++ ·) (pyrepAux_skip (d :: ds) r ds t)

theorem not_sw_marker (c : Char) (w : List Char) (hc : c ≠ '_') :
    listStartsWith tempMarker (c :: w) = false := by
  have hM : tempMarker = '_' :: "_TEMP_PLACEHOLDER__".toList := rfl
  rw [hM]
  show (('_' : Char) == c && listStartsWith "_TEMP_PLACEHOLDER__".toList w) = false
  have hb : (('_' : Char) == c) = false := by
    rw [beq_eq_false_iff_ne]
    exact fun h => hc h.symm
  rw [hb, Bool.false_and]

theorem not_sw_marker2 (c : Char) (w : List Char) (hc : c ≠ '_') :
    listStartsWith tempMarker ('_' :: c :: w) = false := by
  have hM : tempMarker = '_' :: '_' :: "TEMP_PLACEHOLDER__".toList := rfl
  rw [hM]
  show (('_' : Char) == '_' && (('_' : Char) == c
    && listStartsWith "TEMP_PLACEHOLDER__".toList w)) = false
  have hb : (('_' : Char) == c) = false := by
    rw [beq_eq_false_iff_ne]
    exact fun h => hc h.symm
  rw [hb, Bool.false_and, Bool.and_false]

theorem not_sw_marker_block (W : List Char) :
    listStartsWith tempMarker ('_' :: (tempMarker ++ W)) = false := by
  cases hb : listStartsWith tempMarker ('_' :: (tempMarker ++ W)) with
  | false => rfl
  | true =>
    exfalso
    obtain ⟨tail, htail⟩ := (listStartsWith_iff _ _).mp hb
    have h3 := congrArg (List.take 3) htail
    rw [takeAppend tempMarker tail 3] at h3
    rw [List.take_succ_cons, takeAppend tempMarker W 2] at h3
    have e1 : tempMarker.take 2 = ['_', '_'] := rfl
    have e2 : tempMarker.take 3 = ['_', '_', 'T'] := rfl
    have e3 : tempMarker.length = 20 := rfl
    rw [e1, e2, e3] at h3
    simp at h3

theorem hasSubB_tail (n : List Char) (c : Char) (rest : List Char)
    (h : hasSubB n (c :: rest) = false) : hasSubB n rest = false := by
  rw [hasSubB] at h
  exact (Bool.or_eq_false_iff.mp h).2

theorem pass2_charExpand (X : List Char) :
    pyReplace "%".toList "%%".toList X
      = charExpand (fun x => if x = '%' then ['%', '%'] else [x]) X := by
  have h1 : "%".toList = ['%'] := rfl
  have h2 : "%%".toList = ['%', '%'] := rfl
  rw [h1, h2, pyReplace_single]

theorem pass2_append (a b : List Char) :
    pyReplace "%".toList "%%".toList (a ++ b)
      = pyReplace "%".toList "%%".toList a ++ pyReplace "%".toList "%%".toList b := by
  rw [pass2_charExpand, pass2_charExpand, pass2_charExpand, charExpand_append]

theorem pass2_marker : pyReplace "%".toList "%%".toList tempMarker = tempMarker := by
  decide

theorem pass1_match (t : List Char) :
    pyReplace "%s".toList tempMarker ('%' :: 's' :: t)
      = tempMarker ++ pyReplace "%s".toList tempMarker t := by
  have h : "%s".toList = ['%', 's'] := rfl
  rw [h]
  exact pyrep_match_append '%' ['s'] tempMarker t

theorem pass3_match (Y : List Char) :
    pyReplace tempMarker "%s".toList (tempMarker ++ Y)
      = "%s".toList ++ pyReplace tempMarker "%s".toList Y := by
  have hM : tempMarker = '_' :: "_TEMP_PLACEHOLDER__".toList := rfl
  rw [hM]
  exact pyrep_match_append '_' _ _ Y

theorem pass2_cons (c : Char) (X : List Char) :
    pyReplace "%".toList "%%".toList (c :: X)
      = (if c = '%' then ['%', '%'] else [c]) ++ pyReplace "%".toList "%%".toList X := by
  rw [pass2_charExpand, charExpand, ← pass2_charExpand]

theorem sw_ps_false_of_ne (c : Char) (t : List Char) (hc : c ≠ '%') :
    listStartsWith "%s".toList (c :: t) = false := by
  show (('%' : Char) == c && listStartsWith ['s'] t) = false
  have hb : (('%' : Char) == c) = false := by
    rw [beq_eq_false_iff_ne]
    exact fun h => hc h.symm
  rw [hb, Bool.false_and]

theorem sw_ps_false_of_ne2 (c2 : Char) (t : List Char) (hs : c2 ≠ 's') :
    listStartsWith "%s".toList ('%' :: c2 :: t) = false := by
  show (('%' : Char) == '%' && (('s' : Char) == c2 && listStartsWith [] t)) = false
  have hb : (('s' : Char) == c2) = false := by
    rw [beq_eq_false_iff_ne]
    exact fun h => hs h.symm
  rw [hb, Bool.false_and, Bool.and_false]

theorem onePass_cons_ne (c : Char) (t : List Char) (hc : c ≠ '%') :
    onePassEscape (c :: t) = c :: onePassEscape t := by
  rw [onePassEscape.eq_def]
  simp [hc]

theorem onePass_pct_pct (c2 : Char) (t : List Char) (hs : c2 ≠ 's') :
    onePassEscape ('%' :: c2 :: t) = '%' :: '%' :: onePassEscape (c2 :: t) := by
  rw [onePassEscape.eq_def]
  simp [hs]

theorem pass3_no_match (c : Char) (Y : List Char)
    (h : listStartsWith tempMarker (c :: Y) = false) :
    pyReplace tempMarker "%s".toList (c :: Y) = c :: pyReplace tempMarker "%s".toList Y :=
  pyrep_no_match _ _ c Y h

theorem onePass_ps (t : List Char) :
    onePassEscape ('%' :: 's' :: t) = '%' :: 's' :: onePassEscape t := by
  rw [onePassEscape.eq_def]
  simp

/-- The three-pass percent escaping of line 139 equals the single left-to-right
pass `onePassEscape` whenever the template contains no two consecutive
underscores (which would collide with the internal
`__TEMP_PLACEHOLDER__` marker).  Fuel-indexed induction on the length. -/
theorem templateEscaped_fuel : ∀ (N : Nat) (t : List Char), t.length ≤ N →
    hasSubB ['_', '_'] t = false → templateEscaped t = onePassEscape t := by
  intro N
  induction N with
  | zero =>
    intro t ht _
    rw [List.eq_nil_of_length_eq_zero (Nat.le_zero.mp ht)]
    rfl
  | succ N ihN =>
    intro t ht hns
    cases t with
    | nil => rfl
    | cons c t' =>
      have hns' : hasSubB ['_', '_'] t' = false := hasSubB_tail _ _ _ hns
      have hlen' : t'.length ≤ N := by
        simp only [List.length_cons] at ht
        omega
      have ih' := ihN t' hlen' hns'
      by_cases hc : c = '%'
      · subst hc
        cases t' with
        | nil => decide
        | cons c2 t'' =>
          by_cases hs : c2 = 's'
          · subst hs
            have hns'' : hasSubB ['_', '_'] t'' = false := hasSubB_tail _ _ _ hns'
            have hlen'' : t''.length ≤ N := by
              simp only [List.length_cons] at hlen' ht
              omega
            have ih'' := ihN t'' hlen'' hns''
            show pyReplace tempMarker "%s".toList
                (pyReplace "%".toList "%%".toList
                  (pyReplace "%s".toList tempMarker ('%' :: 's' :: t''))) = _
            rw [pass1_match, pass2_append, pass2_marker, pass3_match]
            rw [show pyReplace tempMarker "%s".toList
                (pyReplace "%".toList "%%".toList
                  (pyReplace "%s".toList tempMarker t'')) = templateEscaped t'' from rfl]
            rw [ih'', onePass_ps]
            rfl
          · have hsw := sw_ps_false_of_ne2 c2 t'' hs
            show pyReplace tempMarker "%s".toList
                (pyReplace "%".toList "%%".toList
                  (pyReplace "%s".toList tempMarker ('%' :: c2 :: t''))) = _
            rw [pyrep_no_match _ _ _ _ hsw, pass2_cons, if_pos rfl]
            show pyReplace tempMarker "%s".toList
                ('%' :: '%' :: pyReplace "%".toList "%%".toList
                  (pyReplace "%s".toList tempMarker (c2 :: t''))) = _
            rw [pass3_no_match '%' _ (not_sw_marker '%' _ (by decide)),
              pass3_no_match '%' _ (not_sw_marker '%' _ (by decide))]
            rw [show pyReplace tempMarker "%s".toList
                (pyReplace "%".toList "%%".toList
                  (pyReplace "%s".toList tempMarker (c2 :: t'')))
                = templateEscaped (c2 :: t'') from rfl]
            rw [ih', onePass_pct_pct c2 t'' hs]
      · have hsw := sw_ps_false_of_ne c t' hc
        show pyReplace tempMarker "%s".toList
            (pyReplace "%".toList "%%".toList
              (pyReplace "%s".toList tempMarker (c :: t'))) = _
        rw [pyrep_no_match _ _ _ _ hsw, pass2_cons, if_neg hc]
        show pyReplace tempMarker "%s".toList
            (c :: pyReplace "%".toList "%%".toList
              (pyReplace "%s".toList tempMarker t')) = _
        have hnom : listStartsWith tempMarker
            (c :: pyReplace "%".toList "%%".toList
              (pyReplace "%s".toList tempMarker t')) = false := by
          by_cases hu : c = '_'
          · subst hu
            cases t' with
            | nil => decide
            | cons d t'' =>
              by_cases hds : listStartsWith "%s".toList (d :: t'') = true
              · obtain ⟨tail, htail⟩ := (listStartsWith_iff _ _).mp hds
                rw [htail]
                rw [show "%s".toList ++ tail = '%' :: 's' :: tail from rfl]
                rw [pass1_match, pass2_append, pass2_marker]
                exact not_sw_marker_block _
              · have hds' : listStartsWith "%s".toList (d :: t'') = false := by
                  simpa using hds
                rw [pyrep_no_match _ _ _ _ hds', pass2_cons]
                by_cases hd : d = '%'
                · rw [if_pos hd]
                  exact not_sw_marker2 '%' _ (by decide)
                · rw [if_neg hd]
                  by_cases hdu : d = '_'
                  · exfalso
                    subst hdu
                    have hsw2 : listStartsWith ['_', '_'] ('_' :: '_' :: t'') = true := by
                      simp [listStartsWith]
                    rw [hasSubB, hsw2] at hns
                    simp at hns
                  · exact not_sw_marker2 d _ hdu
          · exact not_sw_marker c _ hu
        rw [pass3_no_match c _ hnom]
        rw [show pyReplace tempMarker "%s".toList
            (pyReplace "%".toList "%%".toList
              (pyReplace "%s".toList tempMarker t')) = templateEscaped t' from rfl]
        rw [ih', onePass_cons_ne c t' hc]

theorem asp_ps (X : List Char) :
    activeSubstPoints ('%' :: 's' :: X) = activeSubstPoints X + 1 := by
  rw [activeSubstPoints.eq_def]
  simp

theorem asp_pp (X : List Char) :
    activeSubstPoints ('%' :: '%' :: X) = activeSubstPoints X := by
  rw [activeSubstPoints.eq_def]
  simp

theorem asp_cons_ne (c : Char) (X : List Char) (hc : c ≠ '%') :
    activeSubstPoints (c :: X) = activeSubstPoints X := by
  rw [activeSubstPoints.eq_def]
  simp [hc]

theorem countPS_ps (X : List Char) : countPS ('%' :: 's' :: X) = countPS X + 1 := by
  rw [countPS.eq_def]
  simp

theorem countPS_pct_ne (c2 : Char) (X : List Char) (hs : c2 ≠ 's') :
    countPS ('%' :: c2 :: X) = countPS (c2 :: X) := by
  rw [countPS.eq_def]
  simp [hs]

theorem countPS_cons_ne (c : Char) (X : List Char) (hc : c ≠ '%') :
    countPS (c :: X) = countPS X := by
  rw [countPS.eq_def]
  simp [hc]

/-- After the single-pass escaping, the substitution points `string.format`
sees are exactly the `%s` occurrences of the original template: every bare
percent has been doubled into a literal and every `%s` pair kept active. -/
theorem asp_onePass : ∀ (N : Nat) (t : List Char), t.length ≤ N →
    activeSubstPoints (onePassEscape t) = countPS t := by
  intro N
  induction N with
  | zero =>
    intro t ht
    rw [List.eq_nil_of_length_eq_zero (Nat.le_zero.mp ht)]
    rfl
  | succ N ihN =>
    intro t ht
    cases t with
    | nil => rfl
    | cons c t' =>
      have hlen' : t'.length ≤ N := by
        simp only [List.length_cons] at ht
        omega
      by_cases hc : c = '%'
      · subst hc
        cases t' with
        | nil => decide
        | cons c2 t'' =>
          by_cases hs : c2 = 's'
          · subst hs
            have hlen'' : t''.length ≤ N := by
              simp only [List.length_cons] at hlen'
              omega
            rw [onePass_ps, asp_ps, countPS_ps, ihN t'' hlen'']
          · rw [onePass_pct_pct c2 t'' hs, asp_pp, countPS_pct_ne c2 t'' hs,
              ihN (c2 :: t'') hlen']
      · rw [onePass_cons_ne c t' hc, asp_cons_ne c _ hc, countPS_cons_ne c t' hc,
          ihN t' hlen']

/-- C8 counterexample: on original text `"%s x.exe+1"` the extractor yields
template `"%s %s"` with ONE extracted token, but the escaping of line 139
leaves the pre-existing literal `%s` completely untouched (it is
indistinguishable from the extractor's placeholder), so TWO substitution
points are active at formatting time instead of the one the extractor
introduced — the pre-existing placeholder-like sequence is not
neutralized. -/
theorem assembler_neutralization_counterexample :
    processSection "%s x.exe+1".toList [(3, 10)]
      = ("%s %s".toList, ["x.exe+1".toList])
    ∧ templateEscaped "%s %s".toList = "%s %s".toList
    ∧ activeSubstPoints (templateEscaped "%s %s".toList) = 2
    ∧ (processSection "%s x.exe+1".toList [(3, 10)]).2.length = 1 := by
  refine ⟨by decide, by decide, by decide, by decide⟩

/-- C8 amended: for every template containing no two consecutive underscores
(avoiding collision with the internal `__TEMP_PLACEHOLDER__` marker), the
escaping of line 139 acts as a single pass that doubles every bare percent
sign and keeps every `%s` pair active, so the number of substitution points
at evaluation time equals the number of `%s` occurrences of the template —
the extractor's placeholders plus any placeholder-like sequence already
present literally in the source, which is NOT neutralized. -/
theorem assembler_percent_escaping (t : List Char) (h : hasSubB ['_', '_'] t = false) :
    templateEscaped t = onePassEscape t
    ∧ activeSubstPoints (templateEscaped t) = countPS t := by
  have h1 := templateEscaped_fuel t.length t (Nat.le_refl _) h
  refine ⟨h1, ?_⟩
  rw [h1]
  exact asp_onePass t.length t (Nat.le_refl _)

/-- Witness for C8 (amended) on a concrete template with a bare percent and
a placeholder. -/
theorem assembler_percent_escaping_witness :
    hasSubB ['_', '_'] "mov [a%sb], 5 % x".toList = false
    ∧ activeSubstPoints (templateEscaped "mov [a%sb], 5 % x".toList)
        = countPS "mov [a%sb], 5 % x".toList :=
  ⟨by decide, (assembler_percent_escaping "mov [a%sb], 5 % x".toList (by decide)).2⟩
